import Mathlib

/-!
# Verification of the Observatorio Político retrieval agent

Shallow embedding of `api/agent_2.py` (the retrieval-and-grounding core of the
repository).  Strings are modelled as `List Char`; Python's case folding is
modelled for the alphabet the program actually works over (ASCII plus the
accented Spanish letters appearing in the tokenizer's character class).  File
reads are modelled by an abstract total `readText : List Char → List Char`
function on the agent, matching `_read_text`, which returns `""` on any error
and never throws.  The external Gemini call is modelled by a
`gen : List Char → GenResult` parameter of `ask`: `GenResult.raise` models the
call raising an exception, `GenResult.ret` models a normal response (whose
`text` field may be `None`, hence `Option`).
-/

namespace OPV

/-- Python `str.lower` restricted to the characters this program manipulates:
ASCII letters and the accented Spanish uppercase vowels, Ñ and Ü. -/
def charLower (c : Char) : Char :=
  if decide ('A' ≤ c ∧ c ≤ 'Z') then Char.ofNat (c.toNat + 32)
  else if c = 'Á' then 'á'
  else if c = 'É' then 'é'
  else if c = 'Í' then 'í'
  else if c = 'Ó' then 'ó'
  else if c = 'Ú' then 'ú'
  else if c = 'Ñ' then 'ñ'
  else if c = 'Ü' then 'ü'
  else c

/-- Python `s.lower()` on a string modelled as a character list. -/
def lowerL (s : List Char) : List Char := s.map charLower

/-- Python's whitespace class used by `str.strip()`. -/
def pyIsSpace (c : Char) : Bool :=
  decide (c = ' ' ∨ c = '\t' ∨ c = '\n' ∨ c = '\r' ∨ c = '\x0b' ∨ c = '\x0c')

/-- Python `s.strip()`: drop whitespace from both ends. -/
def pyStrip (s : List Char) : List Char :=
  ((s.dropWhile pyIsSpace).reverse.dropWhile pyIsSpace).reverse

/-- Python `s.replace("\n", " ")`. -/
def replaceNL (s : List Char) : List Char :=
  s.map (fun c => if c = '\n' then ' ' else c)

/-- Python slicing `s[a:b]` for `0 ≤ a`, `0 ≤ b` (clipped to the length). -/
def sliceList (s : List Char) (a b : Nat) : List Char := (s.take b).drop a

/-- Python `pat in hay` (substring containment). -/
def containsSub (hay pat : List Char) : Bool :=
  match hay with
  | [] => pat.isEmpty
  | _ :: rest => pat.isPrefixOf hay || containsSub rest pat

/-- Start positions of the non-overlapping, left-to-right greedy occurrences of
`pat` in the remaining text, as produced by `re.finditer(re.escape(pat), ·)`
and counted by `str.count`.  `fuel` bounds the scan (instantiated with the
haystack length, which suffices since every step consumes at least one
character); matching never happens for an empty `pat` here, since every caller
filters patterns to length ≥ 3. -/
def findOccsFuel (pat : List Char) : Nat → Nat → List Char → List Nat
  | 0, _, _ => []
  | _ + 1, _, [] => []
  | fuel + 1, i, c :: rest =>
    if pat.isPrefixOf (c :: rest) && !pat.isEmpty then
      i :: findOccsFuel pat fuel (i + pat.length) (rest.drop (pat.length - 1))
    else
      findOccsFuel pat fuel (i + 1) rest

/-- All match start positions of `pat` in `hay` (non-overlapping, greedy). -/
def findOccs (hay pat : List Char) : List Nat := findOccsFuel pat hay.length 0 hay

/-- Python `hay.count(pat)`: number of non-overlapping occurrences. -/
def countSub (hay pat : List Char) : Nat := (findOccs hay pat).length

/-- Python `sep.join(parts)`. -/
def joinSep (sep : List Char) : List (List Char) → List Char
  | [] => []
  | [x] => x
  | x :: xs => x ++ sep ++ joinSep sep xs

/-- Decimal rendering of a natural number, as Python string formatting does. -/
def natToStr (n : Nat) : List Char := (toString n).toList

/-- Python string `<=` (lexicographic by code point), used by `sorted`. -/
def strLE : List Char → List Char → Bool
  | [], _ => true
  | _ :: _, [] => false
  | a :: as, b :: bs =>
    if a.toNat < b.toNat then true
    else if b.toNat < a.toNat then false
    else strLE as bs

/-- The character class `[a-záéíóúñ0-9\-]` of the keyword regex in `_keywords`. -/
def isKwChar (c : Char) : Bool :=
  decide (('a' ≤ c ∧ c ≤ 'z') ∨ c = 'á' ∨ c = 'é' ∨ c = 'í' ∨ c = 'ó' ∨
    c = 'ú' ∨ c = 'ñ' ∨ ('0' ≤ c ∧ c ≤ '9') ∨ c = '-')

/-- Maximal runs of characters satisfying `p` (accumulator holds the current
run reversed). -/
def runsAux (p : Char → Bool) : List Char → List Char → List (List Char)
  | cur, [] => if cur.isEmpty then [] else [cur.reverse]
  | cur, c :: rest =>
    if p c then runsAux p (c :: cur) rest
    else if cur.isEmpty then runsAux p [] rest
    else cur.reverse :: runsAux p [] rest

/-- The stop-word set of `_keywords` (line 43 of `agent_2.py`). -/
def stopWords : List (List Char) :=
  [("que").toList, ("qué").toList, ("cual").toList, ("cuál").toList,
   ("como").toList, ("cómo").toList, ("para").toList, ("por").toList,
   ("con").toList, ("sin").toList, ("una").toList, ("uno").toList,
   ("unos").toList, ("unas").toList, ("del").toList, ("de").toList,
   ("la").toList, ("el").toList, ("los").toList, ("las").toList,
   ("y").toList, ("o").toList, ("a").toList, ("en").toList, ("al").toList,
   ("un").toList, ("es").toList, ("se").toList, ("su").toList, ("sus").toList]

/-- `re.findall(r"[a-záéíóúñ0-9\-]{3,}", s)`: a greedy scan of this pattern
returns exactly the maximal runs of class characters having length ≥ 3. -/
def pyTokens (q : List Char) : List (List Char) :=
  (runsAux isKwChar [] (lowerL q)).filter (fun t => decide (3 ≤ t.length))

/-- `_keywords` (lines 41-45): tokens of the lowered question, stop words
removed. -/
def pyKeywords (q : List Char) : List (List Char) :=
  (pyTokens q).filter (fun w => decide (w ∉ stopWords))

/-- Python's `\w` class, restricted to the program's alphabet (letters, digits,
underscore, accented Spanish letters). -/
def isWordChar (c : Char) : Bool :=
  decide (('a' ≤ c ∧ c ≤ 'z') ∨ ('A' ≤ c ∧ c ≤ 'Z') ∨ ('0' ≤ c ∧ c ≤ '9') ∨
    c = '_' ∨ c = 'á' ∨ c = 'é' ∨ c = 'í' ∨ c = 'ó' ∨ c = 'ú' ∨ c = 'ñ' ∨
    c = 'ü' ∨ c = 'Á' ∨ c = 'É' ∨ c = 'Í' ∨ c = 'Ó' ∨ c = 'Ú' ∨ c = 'Ñ' ∨ c = 'Ü')

/-- Digit test for the `\d` class. -/
def isDigitCh (c : Char) : Bool := decide ('0' ≤ c ∧ c ≤ '9')

/-- Maximal digit runs of a string together with their start positions.
The first argument is the index of the next character, the second the current
run (reversed). -/
def digitRunsAux : Nat → List Char → List Char → List (Nat × List Char)
  | i, cur, [] => if cur.isEmpty then [] else [(i - cur.length, cur.reverse)]
  | i, cur, c :: rest =>
    if isDigitCh c then digitRunsAux (i + 1) (c :: cur) rest
    else if cur.isEmpty then digitRunsAux (i + 1) [] rest
    else (i - cur.length, cur.reverse) :: digitRunsAux (i + 1) [] rest

/-- `re.findall(r"\b\d{2,}\b", qn)`: maximal digit runs of length ≥ 2 whose
neighbouring characters (when they exist) are not word characters. -/
def findNums (qn : List Char) : List (List Char) :=
  ((digitRunsAux 0 [] qn).filter (fun r =>
    decide (2 ≤ r.2.length)
    && (r.1 == 0 || !isWordChar (qn.getD (r.1 - 1) ' '))
    && (qn.length == r.1 + r.2.length || !isWordChar (qn.getD (r.1 + r.2.length) ' '))))
  |>.map (fun r => r.2)

/-- `_normalize` (lines 37-38): `(s or "").strip().lower()`. -/
def pyNormalize (s : List Char) : List Char := lowerL (pyStrip s)

/-- `_score_keywords` (lines 48-59): per-keyword occurrence count in the
lowered text, capped at 30 per keyword, keywords shorter than 3 skipped. -/
def scoreKeywords (words : List (List Char)) (text : List Char) : Nat :=
  if words = [] ∨ text = [] then 0
  else
    words.foldl (fun score w =>
      if w.length < 3 then score
      else if countSub (lowerL text) w ≠ 0 then score + min (countSub (lowerL text) w) 30
      else score) 0

/-- Content score as the specification words it: the sum over the keywords of
`min(case-insensitive occurrence count, 30)`.  This is the refinement target
for the implementation's `scoreKeywords`. -/
def specContentScore (words : List (List Char)) (text : List Char) : Nat :=
  (words.map (fun w => min (countSub (lowerL text) (lowerL w)) 30)).sum

/-- One capture window of `_extract_snippets` (lines 72-74): slice
`[max(0, s - radius), min(|text|, s + |w| + radius))` of the original text,
newlines collapsed, stripped. -/
def mkSnippet (text : List Char) (radius : Nat) (w : List Char) (s : Nat) : List Char :=
  pyStrip (replaceNL (sliceList text (s - radius) (min (s + w.length + radius) text.length)))

/-- Inner loop of `_extract_snippets` for one keyword: append a hit per
occurrence, breaking as soon as the hit list reaches `cap`. -/
def hitsForWord (text : List Char) (radius cap : Nat) (w : List Char) :
    List Nat → List (Nat × List Char) → List (Nat × List Char)
  | [], hits => hits
  | s :: rest, hits =>
    if cap ≤ (hits ++ [(s, mkSnippet text radius w s)]).length then
      hits ++ [(s, mkSnippet text radius w s)]
    else hitsForWord text radius cap w rest (hits ++ [(s, mkSnippet text radius w s)])

/-- Outer loop of `_extract_snippets` (lines 67-79): keywords shorter than 3
are skipped; after each keyword the same `cap` break is checked. -/
def collectHits (text tlow : List Char) (radius cap : Nat) :
    List (List Char) → List (Nat × List Char) → List (Nat × List Char)
  | [], hits => hits
  | w :: ws, hits =>
    if w.length < 3 then collectHits text tlow radius cap ws hits
    else if cap ≤ (hitsForWord text radius cap w (findOccs tlow w) hits).length then
      hitsForWord text radius cap w (findOccs tlow w) hits
    else collectHits text tlow radius cap ws (hitsForWord text radius cap w (findOccs tlow w) hits)

/-- Deduplication loop of `_extract_snippets` (lines 82-87): a snippet is kept
when it is non-empty and not a substring of anything already kept; stop once
`cap` snippets are kept. -/
def dedupKeep (cap : Nat) : List (List Char) → List (Nat × List Char) → List (List Char)
  | acc, [] => acc
  | acc, (_, sn) :: rest =>
    if (!sn.isEmpty) && acc.all (fun u => !containsSub u sn) then
      if cap ≤ (acc ++ [sn]).length then acc ++ [sn]
      else dedupKeep cap (acc ++ [sn]) rest
    else
      if cap ≤ acc.length then acc
      else dedupKeep cap acc rest

/-- Descending-by-key order used to model Python's stable
`sort(key=..., reverse=True)`: `a` may precede `b` iff `key b ≤ key a`. -/
def scoreDesc {α : Type} (f : α → Nat) (a b : α) : Prop := f b ≤ f a

instance {α : Type} (f : α → Nat) : DecidableRel (scoreDesc f) :=
  fun a b => Nat.decLe (f b) (f a)

instance {α : Type} (f : α → Nat) : IsTotal α (scoreDesc f) :=
  ⟨fun a b => Nat.le_total (f b) (f a)⟩

instance {α : Type} (f : α → Nat) : IsTrans α (scoreDesc f) :=
  ⟨fun _ _ _ hab hbc => Nat.le_trans hbc hab⟩

/-- Ascending-by-key order for Python's stable `sort(key=...)`. -/
def posAsc {α : Type} (f : α → Nat) (a b : α) : Prop := f a ≤ f b

instance {α : Type} (f : α → Nat) : DecidableRel (posAsc f) :=
  fun a b => Nat.decLe (f a) (f b)

/-- Lexicographic order on strings as a sorting relation for `sorted(...)`. -/
def strAsc (a b : List Char) : Prop := strLE a b = true

instance : DecidableRel strAsc := fun a b => Bool.decEq (strLE a b) true

/-- `_extract_snippets` (lines 62-94): collect the capped raw hits, sort them
by position (stable), deduplicate/truncate, and fall back to the stripped
8000-character head of the text when nothing was kept. -/
def extractSnippets (text : List Char) (words : List (List Char))
    (maxSnippets radius : Nat) : List (List Char) :=
  if text = [] then []
  else if dedupKeep maxSnippets []
      (List.insertionSort (posAsc Prod.fst)
        (collectHits text (lowerL text) radius (maxSnippets * 3) words [])) = [] then
    if pyStrip (replaceNL (text.take 8000)) = [] then []
    else [pyStrip (replaceNL (text.take 8000))]
  else dedupKeep maxSnippets []
    (List.insertionSort (posAsc Prod.fst)
      (collectHits text (lowerL text) radius (maxSnippets * 3) words []))

/-- Largest keyword length of a keyword list (used to bound window sizes). -/
def maxWordLen (words : List (List Char)) : Nat :=
  words.foldr (fun w m => max w.length m) 0

/-- `DocRef` (lines 97-102): one catalog entry. -/
structure DocRef where
  path : List Char
  group : List Char
  commission : List Char
  sid : List Char
deriving DecidableEq

/-- The agent state an `ask` call runs against: the readiness flag computed in
`__init__`, the document index built by `_build_index`, and the bounded,
failure-tolerant file reader `_read_text` (total; yields `""` on error). -/
structure Agent where
  ready : Bool
  docs : List DocRef
  readText : List Char → List Char

/-- Credential resolution of `__init__` (lines 113-118): the constructor
argument, else the `GEMINI_API_KEY` environment value, else `GOOGLE_API_KEY`,
else the empty string; `ready` iff the resolved key is non-empty and the SDK
imported. -/
def agentInit (key envGemini envGoogle : List Char) (usingNewApi : Bool)
    (docs : List DocRef) (rt : List Char → List Char) : Agent :=
  let resolved := if key ≠ [] then key else if envGemini ≠ [] then envGemini else envGoogle
  { ready := (!resolved.isEmpty) && usingNewApi, docs := docs, readText := rt }

/-- `_detect_commission_filter` (lines 156-167): first distinct, non-empty
commission name whose lowering occurs in the normalized question.  Python
iterates a `set` in unspecified order; the model fixes the order to
first-occurrence deduplication, which the claims do not depend on. -/
def detectCommissionFilter (docs : List DocRef) (q : List Char) : Option (List Char) :=
  let qn := pyNormalize q
  if qn = [] then none
  else ((docs.map (fun d => d.commission)).dedup).find?
    (fun c => (!c.isEmpty) && containsSub qn (lowerL c))

/-- Candidate pool of `_retrieve` (line 179): the whole catalog, or the
commission-filtered part when the disambiguator fired (the filter name is
always non-empty, so Python's falsiness test coincides with the `Option`). -/
def poolOf (ag : Agent) (q : List Char) : List DocRef :=
  match detectCommissionFilter ag.docs q with
  | none => ag.docs
  | some c => ag.docs.filter (fun d => d.commission == c)

/-- Effective keyword list of `_retrieve` (lines 174-176): the question's
keywords, with a generic-domain augmentation when they are empty. -/
def effWords (q : List Char) : List (List Char) :=
  let ws := pyKeywords q
  if ws = [] then pyKeywords (q ++ (" sesión comisión").toList) else ws

/-- The path text `f"{group} {commission} {sid}".lower()` of line 186. -/
def ptsOf (d : DocRef) : List Char :=
  lowerL (d.group ++ [' '] ++ d.commission ++ [' '] ++ d.sid)

/-- Phase-1 metadata scoring of `_retrieve` (lines 183-195): +3 per keyword
occurring in the path text (counted with multiplicity over the keyword list),
+8 when the question carries a standalone number of 2+ digits contained in the
document id; zero-score documents are dropped. -/
def prelimOf (pool : List DocRef) (words : List (List Char)) (qn : List Char) :
    List (Nat × DocRef) :=
  pool.filterMap (fun d =>
    let ptxt := ptsOf d
    let base := 3 * words.countP (fun w => containsSub ptxt w)
    let nums := findNums qn
    let s := base + (if nums ≠ [] ∧ nums.any (fun n => containsSub d.sid n) then 8 else 0)
    if s = 0 then none else some (s, d))

/-- Candidate shortlist of `_retrieve` (lines 197-202): top 60 of the phase-1
ranking (stable descending sort), or the first 60 pool documents when phase 1
scored nothing. -/
def candidatesOf (ag : Agent) (q : List Char) : List DocRef :=
  let words := effWords q
  let qn := pyNormalize q
  let pool := poolOf ag q
  let prelim := prelimOf pool words qn
  if prelim = [] then pool.take 60
  else ((List.insertionSort (scoreDesc Prod.fst) prelim).take 60).map Prod.snd

/-- Phase-2 content scoring of `_retrieve` (lines 204-210): read each
candidate, score its content, keep strictly positive scores, in candidate
order. -/
def scoredOf (ag : Agent) (q : List Char) : List (Nat × DocRef × List Char) :=
  (candidatesOf ag q).filterMap (fun d =>
    let txt := ag.readText d.path
    let s := scoreKeywords (effWords q) txt
    if s = 0 then none else some (s, d, txt))

/-- Lines 212-213: stable descending sort of the scored documents, truncated
to the top `k`. -/
def rankedTop (ag : Agent) (q : List Char) (k : Nat) : List (Nat × DocRef × List Char) :=
  (List.insertionSort (scoreDesc Prod.fst) (scoredOf ag q)).take k

/-- `_retrieve` (lines 169-221): the ranked results with their snippets and
scores, and the sorted distinct commissions of the candidate shortlist. -/
def retrieve (ag : Agent) (q : List Char) (k : Nat) :
    List (DocRef × List (List Char) × Nat) × List (List Char) :=
  ((rankedTop ag q k).map (fun x => (x.2.1, extractSnippets x.2.2 (effWords q) 6 280, x.1)),
   List.insertionSort strAsc (((candidatesOf ag q).map (fun d => d.commission)).dedup))

/-- Outcome of the external generator call: a normal return whose `text`
attribute may be absent, or a raised exception carrying its message. -/
inductive GenResult where
  | ret (text : Option (List Char))
  | raise (e : List Char)

/-- The fixed configuration warning of line 236. -/
def cfgMsg : List Char :=
  ("⚠️ Gemini no está configurado. Revisa GEMINI_API_KEY y requirements (google-genai).").toList

/-- The no-evidence message of lines 240-246: up to 12 searched commissions,
`N/A` when none were searched. -/
def noEvidenceMsg (searched : List (List Char)) : List Char :=
  let comms := if searched = [] then ("N/A").toList else joinSep ((", ").toList) (searched.take 12)
  ("🔍 No encontré evidencia en los documentos disponibles para responder.\n\nComisiones revisadas (muestra): ").toList
  ++ comms
  ++ ("\nTip: prueba mencionar la comisión exacta o el ID de sesión (por ejemplo 173) y el tema.").toList

/-- The error prefix of line 279. -/
def errPrefix : List Char := ("❌ Error Gemini: ").toList

/-- One evidence block of lines 249-253. -/
def sourceBlock (r : DocRef × List (List Char) × Nat) : List Char :=
  ("DOCUMENTO: ").toList ++ r.1.sid ++ (".txt | COMISIÓN: ").toList ++ r.1.commission
  ++ (" | GRUPO: ").toList ++ r.1.group ++ (" | SCORE: ").toList ++ natToStr r.2.2
  ++ ("\n- ").toList ++ joinSep (("\n- ").toList) (r.2.1.take 6)

/-- The prompt of lines 255-265. -/
def buildPrompt (q : List Char) (retrieved : List (DocRef × List (List Char) × Nat)) : List Char :=
  ("PREGUNTA DEL USUARIO:\n").toList ++ q ++ ("\n\nFUENTES (usa SOLO esto):\n").toList
  ++ joinSep (("\n\n").toList) (retrieved.map sourceBlock)
  ++ ("\n\nINSTRUCCIONES:\n- Responde en español, directo y con viñetas si ayuda.\n- Cita fuentes en formato: Fuente: <DOCUMENTO> (Comisión <X>). \n- Si falta un dato específico, dilo y sugiere qué buscar.\n").toList

/-- `ask` (lines 234-279): configuration guard, retrieval, no-evidence guard,
prompt assembly, generator call with its `try`/`except` boundary. -/
def ask (ag : Agent) (gen : List Char → GenResult) (q : List Char) : List Char :=
  if ag.ready then
    if (retrieve ag q 6).1 = [] then noEvidenceMsg (retrieve ag q 6).2
    else
      match gen (buildPrompt q (retrieve ag q 6).1) with
      | GenResult.ret t => pyStrip (t.getD [])
      | GenResult.raise e => errPrefix ++ e
  else cfgMsg

/-! ## Helper lemmas -/

theorem scoreKeywords_foldl_eq (t : List Char) (ws : List (List Char)) (acc : Nat)
    (h : ∀ w ∈ ws, 3 ≤ w.length ∧ lowerL w = w) :
    ws.foldl (fun score w =>
      if w.length < 3 then score
      else if countSub t w ≠ 0 then score + min (countSub t w) 30
      else score) acc
    = acc + (ws.map (fun w => min (countSub t (lowerL w)) 30)).sum := by
  induction ws generalizing acc with
  | nil => simp
  | cons w ws ih =>
    obtain ⟨hlen, hlow⟩ := h w (List.mem_cons_self ..)
    have h' : ∀ x ∈ ws, 3 ≤ x.length ∧ lowerL x = x :=
      fun x hx => h x (List.mem_cons_of_mem _ hx)
    simp only [List.foldl_cons, List.map_cons, List.sum_cons]
    rw [hlow, if_neg (by omega)]
    by_cases hc : countSub t w = 0
    · rw [if_neg (by simp [hc]), ih _ h', hc]
      simp
    · rw [if_pos hc, ih _ h']
      omega

/-! ## Claim theorems -/

/-- Claim C1: for every keyword list satisfying the KeywordSet invariant of the
data model (each term of length ≥ 3 and already lower-cased, which holds for
every output of the tokenizer and hence for every phase-2 invocation), the
content score `_score_keywords` computes equals the sum over the keywords of
`min(case-insensitive occurrence count, 30)`. -/
theorem scoreKeywords_formula (words : List (List Char)) (text : List Char)
    (h : ∀ w ∈ words, 3 ≤ w.length ∧ lowerL w = w) :
    scoreKeywords words text = specContentScore words text := by
  unfold scoreKeywords specContentScore
  by_cases hw : words = [] ∨ text = []
  · rw [if_pos hw]
    rcases hw with hw | hw
    · simp [hw]
    · subst hw
      symm
      apply List.sum_eq_zero
      intro x hx
      obtain ⟨w, _, rfl⟩ := List.mem_map.mp hx
      have hz : countSub (lowerL ([] : List Char)) (lowerL w) = 0 := rfl
      simp [hz]
  · rw [if_neg hw, scoreKeywords_foldl_eq _ _ _ h]
    simp

def c1Words : List (List Char) := [("kkk").toList, ("zzz").toList]

def c1Text : List Char := List.replicate 150 'k' ++ List.replicate 6 'z'

set_option maxRecDepth 40000 in
/-- Witness for C1: a document holding one keyword 50 times (capped
contribution 30) and another keyword 2 times (contribution 2), total 32. -/
theorem scoreKeywords_formula_witness :
    scoreKeywords c1Words c1Text = specContentScore c1Words c1Text
    ∧ scoreKeywords c1Words c1Text = 30 + 2 :=
  ⟨scoreKeywords_formula c1Words c1Text (by decide), by decide⟩

/-- Claim C2: `ask` is a total function in this embedding (it is defined into
`List Char`), and whenever the external generator call raises, `ask` returns
the fixed error-prefixed string embedding the failure detail rather than
propagating the exception. -/
theorem ask_generator_error (ag : Agent) (gen : List Char → GenResult) (q e : List Char)
    (hready : ag.ready = true)
    (hsome : (retrieve ag q 6).1 ≠ [])
    (hgen : gen (buildPrompt q (retrieve ag q 6).1) = GenResult.raise e) :
    ask ag gen q = errPrefix ++ e := by
  unfold ask
  rw [hready, if_pos rfl, if_neg hsome, hgen]

def c2Doc : DocRef := ⟨("p").toList, ("g").toList, ("com").toList, ("s173").toList⟩

def c2Agent : Agent := ⟨true, [c2Doc], fun _ => ("texto de politica y mas politica").toList⟩

def c2Q : List Char := ("politica").toList

def c2Gen : List Char → GenResult := fun _ => GenResult.raise ("boom").toList

/-- Witness for C2: a configured agent with matching evidence and a generator
that raises; `ask` returns the error-prefixed string. -/
theorem ask_generator_error_witness :
    ask c2Agent c2Gen c2Q = errPrefix ++ ("boom").toList :=
  ask_generator_error c2Agent c2Gen c2Q (("boom").toList) rfl (by decide) rfl

/-- Claim C3: when retrieval yields zero scored documents, `ask` returns the
fixed no-evidence message built from the searched commissions — for every
generator, so the external generator is never invoked — and the searched list
is duplicate-free, truncated to at most 12 names in the message, and non-empty
whenever any candidate was searched (`N/A` is substituted otherwise, inside
`noEvidenceMsg`). -/
theorem ask_no_evidence (ag : Agent) (gen : List Char → GenResult) (q : List Char)
    (hready : ag.ready = true)
    (hempty : (retrieve ag q 6).1 = []) :
    ask ag gen q = noEvidenceMsg (retrieve ag q 6).2
    ∧ ((retrieve ag q 6).2).Nodup
    ∧ ((retrieve ag q 6).2.take 12).length ≤ 12
    ∧ (candidatesOf ag q ≠ [] → (retrieve ag q 6).2 ≠ []) := by
  have hperm := List.perm_insertionSort strAsc
    (((candidatesOf ag q).map (fun d => d.commission)).dedup)
  refine ⟨?_, ?_, ?_, ?_⟩
  · unfold ask
    rw [hready, if_pos rfl, if_pos hempty]
  · exact hperm.nodup_iff.mpr (List.nodup_dedup _)
  · exact List.length_take_le _ _
  · intro hc hnil
    have h1 : (((candidatesOf ag q).map (fun d => d.commission)).dedup) = [] := by
      have := hperm.length_eq
      rw [show (retrieve ag q 6).2 =
        List.insertionSort strAsc (((candidatesOf ag q).map (fun d => d.commission)).dedup)
        from rfl] at hnil
      rw [hnil] at this
      exact List.length_eq_zero.mp this.symm
    rw [List.dedup_eq_nil, List.map_eq_nil_iff] at h1
    exact hc h1

def c3Agent : Agent := ⟨true, [c2Doc], fun _ => ("hola").toList⟩

def c3Q : List Char := ("xyzcosa").toList

/-- Witness for C3: a configured agent whose only document scores zero; the
no-evidence message is returned with the searched commission listed. -/
theorem ask_no_evidence_witness :
    ask c3Agent c2Gen c3Q = noEvidenceMsg (retrieve c3Agent c3Q 6).2
    ∧ ((retrieve c3Agent c3Q 6).2).Nodup
    ∧ ((retrieve c3Agent c3Q 6).2.take 12).length ≤ 12
    ∧ (candidatesOf c3Agent c3Q ≠ [] → (retrieve c3Agent c3Q 6).2 ≠ []) :=
  ask_no_evidence c3Agent c2Gen c3Q rfl (by decide)

/-- Claim C4: with no generator credential configured (empty constructor
argument and empty environment values), `ask` returns exactly the fixed
configuration-warning string — for every catalog, file reader and generator,
so the result involves no retrieval and no filesystem access. -/
theorem ask_unconfigured (usingNewApi : Bool) (docs : List DocRef)
    (rt : List Char → List Char) (gen : List Char → GenResult) (q : List Char) :
    ask (agentInit [] [] [] usingNewApi docs rt) gen q = cfgMsg := by
  have hready : (agentInit [] [] [] usingNewApi docs rt).ready = false := by
    simp [agentInit]
  simp [ask, hready]

/-- Claim C5: a question with at least one qualifying token (a length-≥ 3 run
of keyword characters that is not a stop word) yields a non-empty keyword
list whose terms all have length ≥ 3 and avoid the stop-word list. -/
theorem keywords_qualifying (q : List Char)
    (h : ∃ t ∈ pyTokens q, t ∉ stopWords) :
    pyKeywords q ≠ [] ∧ ∀ w ∈ pyKeywords q, 3 ≤ w.length ∧ w ∉ stopWords := by
  constructor
  · obtain ⟨t, ht, hs⟩ := h
    have : t ∈ pyKeywords q := by
      unfold pyKeywords
      exact List.mem_filter.mpr ⟨ht, by simpa using hs⟩
    exact List.ne_nil_of_mem this
  · intro w hw
    unfold pyKeywords at hw
    obtain ⟨hw1, hw2⟩ := List.mem_filter.mp hw
    refine ⟨?_, by simpa using hw2⟩
    unfold pyTokens at hw1
    obtain ⟨_, h3⟩ := List.mem_filter.mp hw1
    simpa using h3

def c5Q : List Char := ("presupuesto de salud").toList

/-- Witness for C5: a concrete Spanish question with qualifying tokens. -/
theorem keywords_qualifying_witness :
    pyKeywords c5Q ≠ [] ∧ ∀ w ∈ pyKeywords c5Q, 3 ≤ w.length ∧ w ∉ stopWords :=
  keywords_qualifying c5Q (by decide)

def c9Q : List Char := ("casa casa").toList

/-- Claim C9 counterexample: `_keywords` never deduplicates, so the question
"casa casa" produces the term "casa" twice — the result is not a set. -/
theorem keywords_dup_cex :
    pyKeywords c9Q = [("casa").toList, ("casa").toList] ∧ ¬ (pyKeywords c9Q).Nodup := by
  exact ⟨by decide, by decide⟩

/-- Claim C9 amended: the keyword list carries each normalized term with
multiplicity — a term occurs in the output exactly as often as it occurs as a
token of the question, unless it is a stop word (count 0); it is therefore a
set only when the question's qualifying tokens are pairwise distinct. -/
theorem keywords_count (q w : List Char) :
    (pyKeywords q).count w = if w ∈ stopWords then 0 else (pyTokens q).count w := by
  by_cases hs : w ∈ stopWords
  · rw [if_pos hs]
    rw [List.count_eq_zero]
    intro hmem
    unfold pyKeywords at hmem
    have := (List.mem_filter.mp hmem).2
    simp at this
    exact this hs
  · rw [if_neg hs]
    unfold pyKeywords
    exact List.count_filter (by simpa using hs)

/-- Claim C10: whenever the commission disambiguator returns a filter name,
that name is the commission of some catalog document, and the filtered pool
passed on to scoring is non-empty. -/
theorem commission_filter_pool (ag : Agent) (q c : List Char)
    (h : detectCommissionFilter ag.docs q = some c) :
    (∃ d ∈ ag.docs, d.commission = c) ∧ poolOf ag q ≠ [] := by
  have hmem : c ∈ (ag.docs.map (fun d => d.commission)).dedup := by
    unfold detectCommissionFilter at h
    by_cases hq : pyNormalize q = []
    · rw [if_pos hq] at h
      exact absurd h (by simp)
    · rw [if_neg hq] at h
      exact List.mem_of_find?_eq_some h
  obtain ⟨d, hd, hdc⟩ := List.mem_map.mp (List.mem_dedup.mp hmem)
  refine ⟨⟨d, hd, hdc⟩, ?_⟩
  unfold poolOf
  rw [h]
  exact List.ne_nil_of_mem (List.mem_filter.mpr ⟨hd, by simp [hdc]⟩)

def c10Agent : Agent :=
  ⟨true, [⟨("p").toList, ("g").toList, ("agricultura").toList, ("s").toList⟩], fun _ => []⟩

def c10Q : List Char := ("temas de agricultura").toList

/-- Witness for C10: a question naming the commission "agricultura". -/
theorem commission_filter_pool_witness :
    (∃ d ∈ c10Agent.docs, d.commission = ("agricultura").toList)
    ∧ poolOf c10Agent c10Q ≠ [] :=
  commission_filter_pool c10Agent c10Q (("agricultura").toList) (by decide)

/-! ## Snippet lemmas (claims C6 and C7) -/

theorem replaceNL_length (l : List Char) : (replaceNL l).length = l.length :=
  List.length_map ..

theorem pyStrip_length_le (l : List Char) : (pyStrip l).length ≤ l.length := by
  unfold pyStrip
  calc ((l.dropWhile pyIsSpace).reverse.dropWhile pyIsSpace).reverse.length
      = ((l.dropWhile pyIsSpace).reverse.dropWhile pyIsSpace).length :=
        List.length_reverse ..
    _ ≤ (l.dropWhile pyIsSpace).reverse.length := (List.dropWhile_sublist _).length_le
    _ = (l.dropWhile pyIsSpace).length := List.length_reverse ..
    _ ≤ l.length := (List.dropWhile_sublist _).length_le

theorem dropWhile_exists_of_ne_nil (p : Char → Bool) (l : List Char)
    (h : l.dropWhile p ≠ []) : ∃ c ∈ l.dropWhile p, p c = false := by
  induction l with
  | nil => simp at h
  | cons a l ih =>
    rw [List.dropWhile_cons] at h ⊢
    by_cases ha : p a = true
    · rw [if_pos ha] at h ⊢
      exact ih h
    · rw [if_neg ha] at h ⊢
      exact ⟨a, List.mem_cons_self .., by simpa using ha⟩

theorem pyStrip_exists_nonspace (l : List Char) (h : pyStrip l ≠ []) :
    ∃ c ∈ pyStrip l, pyIsSpace c = false := by
  unfold pyStrip at h ⊢
  have h2 : (l.dropWhile pyIsSpace).reverse.dropWhile pyIsSpace ≠ [] := by
    intro hnil
    rw [hnil] at h
    exact h rfl
  obtain ⟨c, hc, hcp⟩ := dropWhile_exists_of_ne_nil _ _ h2
  exact ⟨c, List.mem_reverse.mpr hc, hcp⟩

theorem mkSnippet_length (text : List Char) (radius : Nat) (w : List Char) (s : Nat) :
    (mkSnippet text radius w s).length ≤ 2 * radius + w.length := by
  have h2 : (sliceList text (s - radius) (min (s + w.length + radius) text.length)).length
      ≤ 2 * radius + w.length := by
    unfold sliceList
    rw [List.length_drop, List.length_take]
    omega
  calc (mkSnippet text radius w s).length
      ≤ (replaceNL (sliceList text (s - radius)
          (min (s + w.length + radius) text.length))).length := pyStrip_length_le _
    _ = (sliceList text (s - radius) (min (s + w.length + radius) text.length)).length :=
        replaceNL_length _
    _ ≤ 2 * radius + w.length := h2

theorem mkSnippet_nonspace (text : List Char) (radius : Nat) (w : List Char) (s : Nat)
    (h : mkSnippet text radius w s ≠ []) :
    ∃ c ∈ mkSnippet text radius w s, pyIsSpace c = false := by
  unfold mkSnippet at h ⊢
  exact pyStrip_exists_nonspace _ h

theorem maxWordLen_ge (words : List (List Char)) (w : List Char) (hw : w ∈ words) :
    w.length ≤ maxWordLen words := by
  induction words with
  | nil => simp at hw
  | cons x xs ih =>
    show w.length ≤ max x.length (maxWordLen xs)
    rcases List.mem_cons.mp hw with rfl | hw2
    · exact Nat.le_max_left ..
    · exact Nat.le_trans (ih hw2) (Nat.le_max_right ..)

theorem hitsForWord_mem (text : List Char) (radius cap : Nat) (w : List Char) :
    ∀ (occs : List Nat) (hits : List (Nat × List Char)) (h : Nat × List Char),
      h ∈ hitsForWord text radius cap w occs hits →
      h ∈ hits ∨ ∃ s, h = (s, mkSnippet text radius w s) := by
  intro occs
  induction occs with
  | nil => intro hits h hh; exact Or.inl hh
  | cons s rest ih =>
    intro hits h hh
    simp only [hitsForWord] at hh
    by_cases hc : cap ≤ (hits ++ [(s, mkSnippet text radius w s)]).length
    · rw [if_pos hc] at hh
      rcases List.mem_append.mp hh with h1 | h1
      · exact Or.inl h1
      · exact Or.inr ⟨s, List.mem_singleton.mp h1⟩
    · rw [if_neg hc] at hh
      rcases ih _ h hh with h1 | h1
      · rcases List.mem_append.mp h1 with h2 | h2
        · exact Or.inl h2
        · exact Or.inr ⟨s, List.mem_singleton.mp h2⟩
      · exact Or.inr h1

theorem collectHits_mem (text tlow : List Char) (radius cap : Nat) :
    ∀ (ws : List (List Char)) (hits : List (Nat × List Char)) (h : Nat × List Char),
      h ∈ collectHits text tlow radius cap ws hits →
      h ∈ hits ∨ ∃ w ∈ ws, ∃ s, h = (s, mkSnippet text radius w s) := by
  intro ws
  induction ws with
  | nil => intro hits h hh; exact Or.inl hh
  | cons w ws ih =>
    intro hits h hh
    simp only [collectHits] at hh
    by_cases h3 : w.length < 3
    · rw [if_pos h3] at hh
      rcases ih _ h hh with h1 | ⟨w2, hw2, hs⟩
      · exact Or.inl h1
      · exact Or.inr ⟨w2, List.mem_cons_of_mem _ hw2, hs⟩
    · rw [if_neg h3] at hh
      by_cases hc : cap ≤ (hitsForWord text radius cap w (findOccs tlow w) hits).length
      · rw [if_pos hc] at hh
        rcases hitsForWord_mem text radius cap w _ _ h hh with h1 | ⟨s, hs⟩
        · exact Or.inl h1
        · exact Or.inr ⟨w, List.mem_cons_self .., s, hs⟩
      · rw [if_neg hc] at hh
        rcases ih _ h hh with h1 | ⟨w2, hw2, hs⟩
        · rcases hitsForWord_mem text radius cap w _ _ h h1 with h2 | ⟨s, hs⟩
          · exact Or.inl h2
          · exact Or.inr ⟨w, List.mem_cons_self .., s, hs⟩
        · exact Or.inr ⟨w2, List.mem_cons_of_mem _ hw2, hs⟩

theorem dedupKeep_mem (cap : Nat) :
    ∀ (hits : List (Nat × List Char)) (acc : List (List Char)) (u : List Char),
      u ∈ dedupKeep cap acc hits →
      u ∈ acc ∨ ∃ p, (p, u) ∈ hits ∧ u ≠ [] := by
  intro hits
  induction hits with
  | nil => intro acc u hu; exact Or.inl hu
  | cons hd rest ih =>
    obtain ⟨p0, sn⟩ := hd
    intro acc u hu
    simp only [dedupKeep] at hu
    by_cases hkeep : ((!sn.isEmpty) && acc.all (fun v => !containsSub v sn)) = true
    · rw [if_pos hkeep] at hu
      have hsn : sn ≠ [] := by
        have h1 := ((Bool.and_eq_true ..).mp hkeep).1
        simpa using h1
      by_cases hc : cap ≤ (acc ++ [sn]).length
      · rw [if_pos hc] at hu
        rcases List.mem_append.mp hu with h1 | h1
        · exact Or.inl h1
        · have : u = sn := List.mem_singleton.mp h1
          exact Or.inr ⟨p0, by rw [this]; exact List.mem_cons_self .., this ▸ hsn⟩
      · rw [if_neg hc] at hu
        rcases ih _ _ hu with h1 | ⟨p, hp, hne⟩
        · rcases List.mem_append.mp h1 with h2 | h2
          · exact Or.inl h2
          · have : u = sn := List.mem_singleton.mp h2
            exact Or.inr ⟨p0, by rw [this]; exact List.mem_cons_self .., this ▸ hsn⟩
        · exact Or.inr ⟨p, List.mem_cons_of_mem _ hp, hne⟩
    · rw [if_neg hkeep] at hu
      by_cases hc : cap ≤ acc.length
      · rw [if_pos hc] at hu
        exact Or.inl hu
      · rw [if_neg hc] at hu
        rcases ih _ _ hu with h1 | ⟨p, hp, hne⟩
        · exact Or.inl h1
        · exact Or.inr ⟨p, List.mem_cons_of_mem _ hp, hne⟩

theorem dedupKeep_pairwise (cap : Nat) :
    ∀ (hits : List (Nat × List Char)) (acc : List (List Char)),
      acc.Pairwise (fun u v => containsSub u v = false) →
      (dedupKeep cap acc hits).Pairwise (fun u v => containsSub u v = false) := by
  intro hits
  induction hits with
  | nil => intro acc hacc; exact hacc
  | cons hd rest ih =>
    obtain ⟨p0, sn⟩ := hd
    intro acc hacc
    simp only [dedupKeep]
    by_cases hkeep : ((!sn.isEmpty) && acc.all (fun v => !containsSub v sn)) = true
    · rw [if_pos hkeep]
      have hall : ∀ v ∈ acc, containsSub v sn = false := by
        have h2 := ((Bool.and_eq_true ..).mp hkeep).2
        intro v hv
        have h3 := List.all_eq_true.mp h2 v hv
        simpa using h3
      have hacc2 : (acc ++ [sn]).Pairwise (fun u v => containsSub u v = false) := by
        rw [List.pairwise_append]
        refine ⟨hacc, List.pairwise_singleton .., ?_⟩
        intro a ha b hb
        rw [List.mem_singleton.mp hb]
        exact hall a ha
      by_cases hc : cap ≤ (acc ++ [sn]).length
      · rw [if_pos hc]
        exact hacc2
      · rw [if_neg hc]
        exact ih _ hacc2
    · rw [if_neg hkeep]
      by_cases hc : cap ≤ acc.length
      · rw [if_pos hc]
        exact hacc
      · rw [if_neg hc]
        exact ih _ hacc

def c6CexText : List Char := ("0123456789").toList

def c6CexWords : List (List Char) := [("abc").toList]

/-- Claim C6 counterexample: with the text "0123456789", the single keyword
"abc" (absent from the text) and radius 1, the fallback path returns the whole
10-character head as a snippet, exceeding the claimed bound
`2*radius + keywordLength = 5`. -/
theorem snippet_bound_cex :
    extractSnippets c6CexText c6CexWords 6 1 = [c6CexText]
    ∧ 2 * 1 + maxWordLen c6CexWords < c6CexText.length :=
  ⟨by decide, by decide⟩

/-- Claim C6 amended: no returned snippet consists only of whitespace, and
every snippet length is bounded by `2*radius + (longest keyword length)`
except for the fallback snippet (returned when no keyword window survives),
which is bounded by 8000 characters instead. -/
theorem extractSnippets_bounded (text : List Char) (words : List (List Char))
    (maxSnippets radius : Nat) :
    ∀ sn ∈ extractSnippets text words maxSnippets radius,
      (∃ c ∈ sn, pyIsSpace c = false)
      ∧ sn.length ≤ max (2 * radius + maxWordLen words) 8000 := by
  intro sn hsn
  unfold extractSnippets at hsn
  by_cases ht : text = []
  · rw [if_pos ht] at hsn
    simp at hsn
  · rw [if_neg ht] at hsn
    by_cases hu : dedupKeep maxSnippets []
        (List.insertionSort (posAsc Prod.fst)
          (collectHits text (lowerL text) radius (maxSnippets * 3) words [])) = []
    · rw [if_pos hu] at hsn
      by_cases hh : pyStrip (replaceNL (text.take 8000)) = []
      · rw [if_pos hh] at hsn
        simp at hsn
      · rw [if_neg hh] at hsn
        rw [List.mem_singleton.mp hsn]
        refine ⟨pyStrip_exists_nonspace _ hh, ?_⟩
        have h1 := pyStrip_length_le (replaceNL (text.take 8000))
        have h2 := replaceNL_length (text.take 8000)
        have h3 := List.length_take_le 8000 text
        omega
    · rw [if_neg hu] at hsn
      rcases dedupKeep_mem _ _ _ _ hsn with h1 | ⟨p, hp, hne⟩
      · simp at h1
      · have hp2 : (p, sn) ∈ collectHits text (lowerL text) radius (maxSnippets * 3) words [] :=
          (List.perm_insertionSort (posAsc Prod.fst) _).subset hp
        rcases collectHits_mem _ _ _ _ _ _ _ hp2 with h2 | ⟨w, hw, s, hs⟩
        · simp at h2
        · have heq : sn = mkSnippet text radius w s := congrArg Prod.snd hs
          constructor
          · rw [heq]
            exact mkSnippet_nonspace _ _ _ _ (heq ▸ hne)
          · have hb := mkSnippet_length text radius w s
            have hml := maxWordLen_ge words w hw
            rw [heq]
            omega

def c6WText : List Char := ("abcdef").toList

def c6WWords : List (List Char) := [("cde").toList]

/-- Witness for the amended C6: a concrete keyword window snippet. -/
theorem extractSnippets_bounded_witness :
    (∃ c ∈ ("bcdef").toList, pyIsSpace c = false)
    ∧ (("bcdef").toList).length ≤ max (2 * 1 + maxWordLen c6WWords) 8000 :=
  extractSnippets_bounded c6WText c6WWords 6 1 (("bcdef").toList) (by decide)

def c7Text : List Char := ("abcabcDEF").toList

def c7Words : List (List Char) := [("abc").toList]

/-- Claim C7 counterexample: two overlapping windows of adjacent occurrences
of the same keyword where the earlier window's text is a substring of the
later one's — both are kept, because the dedup check only rejects candidates
contained in an already-kept snippet; the subset window is not removed
retroactively when its superset arrives later. -/
theorem snippet_dedup_cex :
    extractSnippets c7Text c7Words 6 5 = [("abcabcDE").toList, ("abcabcDEF").toList]
    ∧ containsSub (("abcabcDEF").toList) (("abcabcDE").toList) = true :=
  ⟨by decide, by decide⟩

/-- Claim C7 amended: a candidate snippet is kept only if it is not a
substring of any already-kept snippet, so no returned snippet is a substring
of an earlier returned one; when the superset window comes first the later
subset window is dropped, but a superset window arriving after its subset is
kept alongside it. -/
theorem snippet_dedup_pairwise (text : List Char) (words : List (List Char))
    (maxSnippets radius : Nat) :
    (extractSnippets text words maxSnippets radius).Pairwise
      (fun u v => containsSub u v = false) := by
  unfold extractSnippets
  by_cases ht : text = []
  · rw [if_pos ht]
    exact List.Pairwise.nil
  · rw [if_neg ht]
    by_cases hu : dedupKeep maxSnippets []
        (List.insertionSort (posAsc Prod.fst)
          (collectHits text (lowerL text) radius (maxSnippets * 3) words [])) = []
    · rw [if_pos hu]
      by_cases hh : pyStrip (replaceNL (text.take 8000)) = []
      · rw [if_pos hh]
        exact List.Pairwise.nil
      · rw [if_neg hh]
        exact List.pairwise_singleton ..
    · rw [if_neg hu]
      exact dedupKeep_pairwise _ _ _ List.Pairwise.nil

/-! ## Ranking lemmas (claim C8) -/

theorem filter_orderedInsert {α : Type} (f : α → Nat) (s : Nat) (x : α) (l : List α) :
    (List.orderedInsert (scoreDesc f) x l).filter (fun y => f y == s) =
      if f x == s then x :: l.filter (fun y => f y == s)
      else l.filter (fun y => f y == s) := by
  induction l with
  | nil =>
    simp only [List.orderedInsert_nil, List.filter_cons, List.filter_nil]
  | cons b l ih =>
    simp only [List.orderedInsert]
    by_cases hr : scoreDesc f x b
    · rw [if_pos hr]
      simp only [List.filter_cons]
    · rw [if_neg hr]
      have hlt : f x < f b := by
        unfold scoreDesc at hr
        omega
      simp only [List.filter_cons]
      rw [ih]
      by_cases hb : (f b == s) = true
      · by_cases hx : (f x == s) = true
        · exfalso
          have h1 : f x = s := by simpa using hx
          have h2 : f b = s := by simpa using hb
          omega
        · simp [hb, hx]
      · by_cases hx : (f x == s) = true
        · simp [hb, hx]
        · simp [hb, hx]

theorem filter_insertionSort {α : Type} (f : α → Nat) (s : Nat) (l : List α) :
    (List.insertionSort (scoreDesc f) l).filter (fun y => f y == s) =
      l.filter (fun y => f y == s) := by
  induction l with
  | nil => rfl
  | cons x l ih =>
    simp only [List.insertionSort]
    rw [filter_orderedInsert, ih]
    simp only [List.filter_cons]

theorem filter_take_leads {α : Type} (p : α → Bool) :
    ∀ (k : Nat) (l : List α), (l.take k).filter p <+: l.filter p := by
  intro k l
  induction l generalizing k with
  | nil => exact ⟨[], by simp⟩
  | cons x l ih =>
    cases k with
    | zero => exact ⟨(x :: l).filter p, by simp⟩
    | succ k =>
      rw [List.take_succ_cons]
      by_cases hx : p x = true
      · rw [List.filter_cons_of_pos hx, List.filter_cons_of_pos hx]
        obtain ⟨t, ht⟩ := ih k
        exact ⟨t, by rw [List.cons_append, ht]⟩
      · rw [List.filter_cons_of_neg hx, List.filter_cons_of_neg hx]
        exact ih k

theorem map_leads {α β : Type} (g : α → β) {l₁ l₂ : List α} (h : l₁ <+: l₂) :
    l₁.map g <+: l₂.map g := by
  obtain ⟨t, ht⟩ := h
  exact ⟨t.map g, by rw [← List.map_append, ht]⟩

def c8DocA : DocRef := ⟨("pa").toList, ("g").toList, ("c").toList, ("alpha").toList⟩

def c8DocB : DocRef := ⟨("pb").toList, ("g").toList, ("c").toList, ("alpha99").toList⟩

def c8Agent : Agent := ⟨true, [c8DocA, c8DocB], fun _ => ("alpha alpha").toList⟩

def c8Q : List Char := ("alpha 99").toList

/-- Claim C8 counterexample: both documents hold the same content (content
score 2 each), the catalog enumerates `alpha` before `alpha99`, but the
question's id bonus ranks `alpha99` first in the phase-1 shortlist, so the
equal-content-score results come back in shortlist order `[alpha99, alpha]`,
not in the catalog's enumeration order. -/
theorem retrieve_tiebreak_cex :
    c8Agent.docs = [c8DocA, c8DocB]
    ∧ ((retrieve c8Agent c8Q 6).1.map (fun r => (r.1.sid, r.2.2)))
        = [(("alpha99").toList, 2), (("alpha").toList, 2)] :=
  ⟨rfl, by decide⟩

/-- Claim C8 amended: final retrieval results are ranked descending by content
score, and results with equal score keep the relative order of the phase-2
scored list — i.e. of the phase-1 candidate shortlist, which coincides with
catalog enumeration order only when the compared documents had equal metadata
scores or the metadata pass scored nothing. -/
theorem retrieve_rank_order (ag : Agent) (q : List Char) (k : Nat) :
    List.Pairwise (fun a b => b.2.2 ≤ a.2.2) (retrieve ag q k).1
    ∧ ∀ s : Nat,
      ((retrieve ag q k).1.filter (fun r => r.2.2 == s)).map (fun r => r.1)
      <+: ((scoredOf ag q).filter (fun x => x.1 == s)).map (fun x => x.2.1) := by
  constructor
  · show List.Pairwise _ ((rankedTop ag q k).map
      (fun x => (x.2.1, extractSnippets x.2.2 (effWords q) 6 280, x.1)))
    rw [List.pairwise_map]
    have hs : List.Sorted (scoreDesc Prod.fst)
        (List.insertionSort (scoreDesc Prod.fst) (scoredOf ag q)) :=
      List.sorted_insertionSort _ _
    exact hs.sublist (List.take_sublist _ _)
  · intro s
    show ((((rankedTop ag q k).map
        (fun x => (x.2.1, extractSnippets x.2.2 (effWords q) 6 280, x.1))).filter
          (fun r => r.2.2 == s)).map (fun r => r.1))
      <+: ((scoredOf ag q).filter (fun x => x.1 == s)).map (fun x => x.2.1)
    rw [List.filter_map, List.map_map]
    show ((rankedTop ag q k).filter (fun y => y.1 == s)).map (fun y => y.2.1) <+: _
    have h1 : ((rankedTop ag q k).filter (fun y => y.1 == s))
        <+: ((scoredOf ag q).filter (fun y => y.1 == s)) := by
      have h2 := filter_take_leads (fun y : Nat × DocRef × List Char => y.1 == s) k
        (List.insertionSort (scoreDesc Prod.fst) (scoredOf ag q))
      rw [filter_insertionSort] at h2
      exact h2
    exact map_leads _ h1

end OPV
